import Mathlib

/-!
Verification of the MetGem force-directed layout engine
(`lib/workers/network.py`, class `NetworkWorker`) and of the GraphML
attribute-type classifier (`lib/graphml.py`, `GraphMLWriter._get_type`).

The layout engine is shallowly embedded: coordinates are rationals,
the external force-simulation kernel (ForceAtlas2) and the external
connected-component decomposition (igraph `Graph.clusters()`) are
parameters, and the cooperative stop flag of the worker base class is a
function from check points to Bool.
-/

namespace MetGem

/-- A 2D coordinate, as produced by the layout engine. -/
abbrev Coord := ℚ × ℚ

/-- `RADIUS` from `lib/config.py`: the node radius used by the network
visualisation; `NetworkWorker.__init__` sets `self.radius = RADIUS`. -/
def RADIUS : ℚ := 30

/-- A weighted undirected graph: `n` vertices indexed `0 .. n-1`, an edge
list, and the per-edge `__weight` attribute (parallel to `edges`). -/
structure SGraph where
  n : Nat
  edges : List (Nat × Nat)
  weight : List ℚ
deriving DecidableEq, Repr

/-- `igraph.Graph.subgraph(ids)`: the induced subgraph on the vertex list
`ids`, with vertices relabelled by their position in `ids` and edge
attributes carried over. -/
def subgraph (g : SGraph) (ids : List Nat) : SGraph :=
  let ew := (g.edges.zip g.weight).filterMap (fun e =>
    match ids.indexOf? e.1.1, ids.indexOf? e.1.2 with
    | some i, some j => some ((i, j), e.2)
    | _, _ => none)
  ⟨ids.length, ew.map Prod.fst, ew.map Prod.snd⟩

/-- The external force-simulation kernel, as called at line 46 of
`network.py`: arguments are the induced subgraph, the iteration budget,
the scaling ratio (`scalingRatio=radius`) and the node size hint
(`adjustSizes=2*radius`).  It returns one local coordinate per subgraph
vertex. -/
abbrev Kernel := SGraph → Nat → ℚ → ℚ → List Coord

/-- An axis-aligned bounding box, as returned by igraph
`Layout.bounding_box(border)`. -/
structure BBox where
  left : ℚ
  top : ℚ
  width : ℚ
  height : ℚ
deriving DecidableEq, Repr

/-- igraph `Layout.bounding_box(border=b)`: the smallest axis-aligned box
containing every point, expanded by `b` on each side.  Layouts handed to
it by `NetworkWorker.run` are nonempty; the empty case is a junk value. -/
def boundingBox (l : List Coord) (border : ℚ) : BBox :=
  match l with
  | [] => ⟨0, 0, 0, 0⟩
  | p :: ps =>
    let minx := ps.foldl (fun m q => min m q.1) p.1
    let maxx := ps.foldl (fun m q => max m q.1) p.1
    let miny := ps.foldl (fun m q => min m q.2) p.2
    let maxy := ps.foldl (fun m q => max m q.2) p.2
    ⟨minx - border, miny - border, maxx - minx + 2 * border, maxy - miny + 2 * border⟩

/-- igraph `Layout.translate(tx, ty)`. -/
def translate (l : List Coord) (tx ty : ℚ) : List Coord :=
  l.map (fun p => (p.1 + tx, p.2 + ty))

/-- Lines 39-47 of `network.py`: the local (pre-packing) layout of one
component together with its border margin.  A singleton component is
placed at the origin, a two-vertex component is stacked vertically at
`(0, -2*radius)` and `(0, 2*radius)` (border `2*radius` in both cases),
and any other component is laid out by the external kernel with 1000
iterations (border `5*radius`). -/
def localLayout (kernel : Kernel) (radius : ℚ) (g : SGraph) (ids : List Nat) :
    List Coord × ℚ :=
  let graph := subgraph g ids
  let vcount := graph.n
  if vcount = 1 then
    ([((0 : ℚ), (0 : ℚ))], 2 * radius)
  else if vcount = 2 then
    ([((0 : ℚ), -(2 * radius)), ((0 : ℚ), 2 * radius)], 2 * radius)
  else
    (kernel graph 1000 radius (2 * radius), 5 * radius)

/-- The bordered bounding box of one component's local layout
(line 49 of `network.py`). -/
def compBB (kernel : Kernel) (radius : ℚ) (g : SGraph) (ids : List Nat) : BBox :=
  boundingBox (localLayout kernel radius g ids).1 (localLayout kernel radius g ids).2

/-- Line 50 of `network.py`: the component's global coordinates, its local
layout translated so that the top-left corner of the bordered bounding
box lands on the packing cursor `(dx, dy)`. -/
def globalCoords (kernel : Kernel) (radius : ℚ) (g : SGraph) (dx dy : ℚ)
    (ids : List Nat) : List Coord :=
  translate (localLayout kernel radius g ids).1
    (dx - (compBB kernel radius g ids).left) (dy - (compBB kernel radius g ids).top)

/-- The packing cursor state: `dx, dy` (current insertion point),
`maxHeight` (tallest component of the current row) and `maxWidth`
(row width limit, `0` until first set). -/
structure Cursor where
  dx : ℚ
  dy : ℚ
  maxHeight : ℚ
  maxWidth : ℚ
deriving DecidableEq, Repr

/-- Lines 55-63 of `network.py`: the shelf-packing cursor update run after
a component with bordered bounding box `bb` has been placed.
`max_width` is set from the first component (`bb.width*2`) only while it
is still `0`; `dx` advances by `bb.width`; the row height tracker takes
the running maximum; when `dx` reaches `max_width` the cursor wraps to a
new row. -/
def stepCursor (c : Cursor) (bb : BBox) : Cursor :=
  let mw := if c.maxWidth = 0 then bb.width * 2 else c.maxWidth
  let dx1 := c.dx + bb.width
  let mh := max c.maxHeight bb.height
  if mw ≤ dx1 then ⟨0, c.dy + mh, 0, mw⟩ else ⟨dx1, c.dy, mh, mw⟩

/-- Lines 52-53 of `network.py`: `layout[index] = coord` for each
`(coord, index)` pair of `zip(l, ids)` — global coordinates are written
under the original graph vertex index. -/
def writeCoords (a : Array Coord) : List (Coord × Nat) → Array Coord
  | [] => a
  | q :: rest => writeCoords (a.setD q.2 q.1) rest

/-- The mutable state of `NetworkWorker.run`: the result array
(`np.zeros((self.max, 2))`), the packing cursor and the cumulative
vertex counter. -/
structure RunState where
  layout : Array Coord
  cursor : Cursor
  totalCount : Nat
deriving Repr

/-- The terminal outcome of a run: `cancelled` (`canceled.emit(); return
False`, surfacing no coordinates) or `done` with the layout array. -/
inductive Outcome where
  | cancelled : Outcome
  | done : Array Coord → Outcome
deriving DecidableEq, Repr

/-- The body of one loop iteration of `NetworkWorker.run` (lines 36-65 of
`network.py`), acting on the mutable state: lay the component out
locally, compute its bordered bounding box, translate it onto the
packing cursor, write the coordinates under the original vertex indices,
update the cursor and advance the cumulative vertex counter by the
subgraph vertex count. -/
def stepState (kernel : Kernel) (radius : ℚ) (g : SGraph) (st : RunState)
    (ids : List Nat) : RunState :=
  let p := localLayout kernel radius g ids
  let bb := boundingBox p.1 p.2
  let l := translate p.1 (st.cursor.dx - bb.left) (st.cursor.dy - bb.top)
  ⟨writeCoords st.layout (l.zip ids), stepCursor st.cursor bb,
    st.totalCount + (subgraph g ids).n⟩

/-- Lines 30-66 of `network.py`: the per-component loop.  `stopped i` is
the value the cooperative stop flag (`self.isStopped()`) would show at
the check preceding component number `i`; the returned list collects the
values passed to `self.updated.emit` (one cumulative count per packed
component). -/
def runLoop (kernel : Kernel) (radius : ℚ) (stopped : Nat → Bool) (g : SGraph) :
    Nat → List (List Nat) → RunState → List Nat × Outcome
  | _, [], st => ([], .done st.layout)
  | i, ids :: rest, st =>
    if stopped i then ([], .cancelled)
    else
      let st1 := stepState kernel radius g st ids
      let res := runLoop kernel radius stopped g (i + 1) rest st1
      (st1.totalCount :: res.1, res.2)

/-- Components of equal or larger size come first: the order produced by
`sorted(self.graph.clusters(), key=len, reverse=True)` (line 26). -/
def clusterGE (a b : List Nat) : Prop := b.length ≤ a.length

instance : DecidableRel clusterGE := fun a b => Nat.decLe b.length a.length

instance : IsTotal (List Nat) clusterGE := ⟨fun a b => Nat.le_total b.length a.length⟩

instance : IsTrans (List Nat) clusterGE := ⟨fun _ _ _ h1 h2 => le_trans h2 h1⟩

/-- Line 26 of `network.py`: a stable sort of the component list by size,
largest first. -/
def sortClusters (cs : List (List Nat)) : List (List Nat) :=
  cs.insertionSort clusterGE

/-- The initial run state: an all-zero coordinate array of size
`self.max = graph.vcount()`, cursor at the origin with no row limit yet,
and a zero vertex counter (lines 20-29). -/
def initState (g : SGraph) : RunState :=
  ⟨Array.mkArray g.n ((0 : ℚ), (0 : ℚ)), ⟨0, 0, 0, 0⟩, 0⟩

/-- `NetworkWorker.run`.  `clusters0` is the component decomposition
`self.graph.clusters()` delivered by the external graph library (a list
of vertex-index lists); everything after that call is modelled from the
source. -/
def run (kernel : Kernel) (radius : ℚ) (stopped : Nat → Bool) (g : SGraph)
    (clusters0 : List (List Nat)) : List Nat × Outcome :=
  runLoop kernel radius stopped g 0 (sortClusters clusters0) (initState g)

/-- The packing cursor obtained by folding the cursor update over a list
of components, starting from `c0`. -/
def cursorFrom (kernel : Kernel) (radius : ℚ) (g : SGraph) (c0 : Cursor)
    (clusters : List (List Nat)) : Cursor :=
  clusters.foldl (fun c ids => stepCursor c (compBB kernel radius g ids)) c0

/-- The packing cursor in force when component number `k` of `clusters`
is about to be placed (all cursors start from the zero state of
`initState`). -/
def cursorAt (kernel : Kernel) (radius : ℚ) (g : SGraph)
    (clusters : List (List Nat)) (k : Nat) : Cursor :=
  cursorFrom kernel radius g ⟨0, 0, 0, 0⟩ (clusters.take k)

/-- Cumulative sums: the successive values of `total_count` emitted by
the progress channel, starting from `t`. -/
def cumSums (t : Nat) : List Nat → List Nat
  | [] => []
  | x :: xs => (t + x) :: cumSums (t + x) xs

/-- A kernel usable in concrete evaluations: it returns one origin
coordinate per subgraph vertex. -/
def constKernel : Kernel := fun sub _ _ _ => List.replicate sub.n ((0 : ℚ), (0 : ℚ))

/-- The coordinate surfaced for vertex `v` by a finished run: `none` when
the run was cancelled (no coordinate data is surfaced at all). -/
def coordAt (r : List Nat × Outcome) (v : Nat) : Option Coord :=
  match r.2 with
  | .cancelled => none
  | .done l => l.get? v

section Lemmas

variable {kernel : Kernel} {radius : ℚ} {stopped : Nat → Bool} {g : SGraph}

lemma subgraph_n (g : SGraph) (ids : List Nat) : (subgraph g ids).n = ids.length := rfl

lemma runLoop_nil (i : Nat) (st : RunState) :
    runLoop kernel radius stopped g i [] st = ([], .done st.layout) := rfl

lemma runLoop_cons_stop {i : Nat} (h : stopped i = true) (ids : List Nat)
    (rest : List (List Nat)) (st : RunState) :
    runLoop kernel radius stopped g i (ids :: rest) st = ([], .cancelled) := by
  simp [runLoop, h]

lemma runLoop_cons_go {i : Nat} (h : stopped i = false) (ids : List Nat)
    (rest : List (List Nat)) (st : RunState) :
    runLoop kernel radius stopped g i (ids :: rest) st =
      ((stepState kernel radius g st ids).totalCount ::
        (runLoop kernel radius stopped g (i + 1) rest (stepState kernel radius g st ids)).1,
       (runLoop kernel radius stopped g (i + 1) rest (stepState kernel radius g st ids)).2) := by
  simp [runLoop, h]

lemma localLayout_one {ids : List Nat} (h : ids.length = 1) :
    localLayout kernel radius g ids = ([((0 : ℚ), (0 : ℚ))], 2 * radius) := by
  simp only [localLayout, subgraph_n, h]
  norm_num

lemma localLayout_two {ids : List Nat} (h : ids.length = 2) :
    localLayout kernel radius g ids =
      ([((0 : ℚ), -(2 * radius)), ((0 : ℚ), 2 * radius)], 2 * radius) := by
  simp only [localLayout, subgraph_n, h]
  norm_num

lemma localLayout_big {ids : List Nat} (h1 : ids.length ≠ 1) (h2 : ids.length ≠ 2) :
    localLayout kernel radius g ids =
      (kernel (subgraph g ids) 1000 radius (2 * radius), 5 * radius) := by
  simp only [localLayout, subgraph_n]
  rw [if_neg h1, if_neg h2]

lemma no_clusters_of_empty {clusters0 : List (List Nat)} (h0 : g.n = 0)
    (hne : ∀ c ∈ clusters0, c ≠ [])
    (hlt : ∀ c ∈ clusters0, ∀ v ∈ c, v < g.n) : clusters0 = [] := by
  cases clusters0 with
  | nil => rfl
  | cons c cs =>
    exfalso
    obtain ⟨v, hv⟩ := List.exists_mem_of_ne_nil c (hne c (List.mem_cons_self c cs))
    have := hlt c (List.mem_cons_self c cs) v hv
    omega

lemma run_of_no_clusters (kernel : Kernel) (radius : ℚ) (stopped : Nat → Bool)
    (g : SGraph) :
    run kernel radius stopped g [] = ([], .done (Array.mkArray g.n ((0 : ℚ), (0 : ℚ)))) := rfl

end Lemmas

/-- Claim C5: every connected component of exactly two vertices is placed,
for every positive radius, at local coordinates `(0, -2r)` and `(0, 2r)`
before the packing translation, with border margin `2r`, and the force
simulation kernel is not invoked for it (the local layout is the same
for every kernel). -/
theorem networkC5_two_vertex_component (kernel : Kernel) (radius : ℚ) (g : SGraph)
    (ids : List Nat) (hr : 0 < radius) (h2 : ids.length = 2) :
    localLayout kernel radius g ids =
      ([((0 : ℚ), -(2 * radius)), ((0 : ℚ), 2 * radius)], 2 * radius) ∧
    ∀ kernel2 : Kernel,
      localLayout kernel2 radius g ids = localLayout kernel radius g ids := by
  refine ⟨localLayout_two h2, fun kernel2 => ?_⟩
  rw [localLayout_two h2, localLayout_two h2]

/-- Claim C5 witness: the two-vertex component `[0, 1]` of a concrete
two-vertex graph, at the configured radius 30. -/
theorem networkC5_two_vertex_component_witness :
    localLayout constKernel RADIUS ⟨2, [(0, 1)], [1]⟩ [0, 1] =
      ([((0 : ℚ), -(2 * RADIUS)), ((0 : ℚ), 2 * RADIUS)], 2 * RADIUS) ∧
    ∀ kernel2 : Kernel,
      localLayout kernel2 RADIUS ⟨2, [(0, 1)], [1]⟩ [0, 1] =
        localLayout constKernel RADIUS ⟨2, [(0, 1)], [1]⟩ [0, 1] :=
  networkC5_two_vertex_component constKernel RADIUS ⟨2, [(0, 1)], [1]⟩ [0, 1]
    (by norm_num [RADIUS]) rfl

/-- Claim C7: every component whose vertex count is neither 1 nor 2 is laid
out by the external force-simulation kernel applied to the induced
subgraph — whatever the edge weights are — with exactly 1000 iterations,
scaling ratio `radius` and node sizing `2*radius`, and its border margin
is `5*radius`. -/
theorem networkC7_simulation_path (kernel : Kernel) (radius : ℚ) (g : SGraph)
    (ids : List Nat) (h1 : ids.length ≠ 1) (h2 : ids.length ≠ 2) :
    localLayout kernel radius g ids =
      (kernel (subgraph g ids) 1000 radius (2 * radius), 5 * radius) :=
  localLayout_big h1 h2

/-- Claim C7 witness: a three-vertex component whose edge weights are all
zero still goes through the kernel path. -/
theorem networkC7_simulation_path_witness :
    localLayout constKernel RADIUS ⟨3, [(0, 1), (1, 2)], [0, 0]⟩ [0, 1, 2] =
      (constKernel (subgraph ⟨3, [(0, 1), (1, 2)], [0, 0]⟩ [0, 1, 2]) 1000 RADIUS
        (2 * RADIUS), 5 * RADIUS) :=
  networkC7_simulation_path constKernel RADIUS ⟨3, [(0, 1), (1, 2)], [0, 0]⟩ [0, 1, 2]
    (by decide) (by decide)

/-- Claim C8: for a graph with zero vertices (hence no components), the run
returns an empty layout immediately and emits zero progress events. -/
theorem networkC8_empty_graph (kernel : Kernel) (radius : ℚ) (stopped : Nat → Bool)
    (g : SGraph) (clusters0 : List (List Nat)) (h0 : g.n = 0)
    (hne : ∀ c ∈ clusters0, c ≠ [])
    (hlt : ∀ c ∈ clusters0, ∀ v ∈ c, v < g.n) :
    run kernel radius stopped g clusters0 =
      ([], .done (Array.mkArray g.n ((0 : ℚ), (0 : ℚ)))) := by
  rw [no_clusters_of_empty h0 hne hlt]
  exact run_of_no_clusters kernel radius stopped g

/-- Claim C8 witness: the concrete empty graph. -/
theorem networkC8_empty_graph_witness :
    run constKernel RADIUS (fun _ => false) ⟨0, [], []⟩ [] =
      ([], .done (Array.mkArray 0 ((0 : ℚ), (0 : ℚ)))) :=
  networkC8_empty_graph constKernel RADIUS (fun _ => false) ⟨0, [], []⟩ [] rfl
    (by simp) (by simp)

/-- Claim C10: for a graph with zero vertices the run returns the successful
empty layout and never the cancelled outcome, even when cancellation was
requested before the run started — the stop flag is only consulted
inside the per-component loop, which runs zero times. -/
theorem networkC10_empty_graph_never_cancelled (kernel : Kernel) (radius : ℚ)
    (stopped : Nat → Bool) (g : SGraph) (clusters0 : List (List Nat)) (h0 : g.n = 0)
    (hne : ∀ c ∈ clusters0, c ≠ [])
    (hlt : ∀ c ∈ clusters0, ∀ v ∈ c, v < g.n)
    (hstop : stopped 0 = true) :
    run kernel radius stopped g clusters0 =
      ([], .done (Array.mkArray g.n ((0 : ℚ), (0 : ℚ)))) ∧
    ∀ ev, run kernel radius stopped g clusters0 ≠ (ev, Outcome.cancelled) := by
  have hmain : run kernel radius stopped g clusters0 =
      ([], .done (Array.mkArray g.n ((0 : ℚ), (0 : ℚ)))) := by
    rw [no_clusters_of_empty h0 hne hlt]
    exact run_of_no_clusters kernel radius stopped g
  refine ⟨hmain, fun ev h => ?_⟩
  rw [hmain] at h
  simp at h

/-- Claim C10 witness: the concrete empty graph with the stop flag already
set before the run starts. -/
theorem networkC10_empty_graph_never_cancelled_witness :
    run constKernel RADIUS (fun _ => true) ⟨0, [], []⟩ [] =
      ([], .done (Array.mkArray 0 ((0 : ℚ), (0 : ℚ)))) ∧
    ∀ ev, run constKernel RADIUS (fun _ => true) ⟨0, [], []⟩ [] ≠ (ev, Outcome.cancelled) :=
  networkC10_empty_graph_never_cancelled constKernel RADIUS (fun _ => true) ⟨0, [], []⟩ []
    rfl (by simp) (by simp) rfl

section Cancellation

variable {kernel : Kernel} {radius : ℚ} {stopped : Nat → Bool} {g : SGraph}

lemma runLoop_cancel :
    ∀ (clusters : List (List Nat)) (st : RunState) (i0 i : Nat),
      i < clusters.length →
      (∀ j, j < i → stopped (i0 + j) = false) →
      stopped (i0 + i) = true →
      ∃ ev, runLoop kernel radius stopped g i0 clusters st = (ev, .cancelled) ∧
        ev.length = i := by
  intro clusters
  induction clusters with
  | nil =>
    intro st i0 i hi _ _
    simp at hi
  | cons c rest ih =>
    intro st i0 i hi hj hsi
    cases i with
    | zero =>
      have h0 : stopped i0 = true := by simpa using hsi
      exact ⟨[], runLoop_cons_stop h0 c rest st, rfl⟩
    | succ k =>
      have h0 : stopped i0 = false := by simpa using hj 0 (Nat.succ_pos k)
      obtain ⟨ev, hev, hlen⟩ := ih (stepState kernel radius g st c) (i0 + 1) k
        (by simpa using hi)
        (fun j hjk => by
          have h := hj (j + 1) (by omega)
          have e : i0 + 1 + j = i0 + (j + 1) := by omega
          rw [e]
          exact h)
        (by
          have e : i0 + 1 + k = i0 + (k + 1) := by omega
          rw [e]
          exact hsi)
      refine ⟨(stepState kernel radius g st c).totalCount :: ev, ?_, by simp [hlen]⟩
      rw [runLoop_cons_go h0, hev]

end Cancellation

/-- Claim C3 (amended): for every graph whose component decomposition is
nonempty, cancellation observed at the first check point yields the
cancelled outcome with zero progress events, and cancellation first
observed at check point `i` inside the run yields the cancelled outcome
carrying exactly the `i` progress events of the already-packed
components (no further events); the cancelled outcome carries no layout,
so it is distinguishable from every completed layout and surfaces no
coordinate for any vertex. -/
theorem networkC3_cancellation (kernel : Kernel) (radius : ℚ) (stopped : Nat → Bool)
    (g : SGraph) (clusters0 : List (List Nat)) (hcl : clusters0 ≠ []) :
    (stopped 0 = true → run kernel radius stopped g clusters0 = ([], .cancelled)) ∧
    (∀ i, i < (sortClusters clusters0).length → (∀ j, j < i → stopped j = false) →
      stopped i = true →
      ∃ ev, run kernel radius stopped g clusters0 = (ev, .cancelled) ∧ ev.length = i) := by
  have hgen : ∀ i, i < (sortClusters clusters0).length →
      (∀ j, j < i → stopped j = false) → stopped i = true →
      ∃ ev, run kernel radius stopped g clusters0 = (ev, .cancelled) ∧ ev.length = i := by
    intro i hi hj hsi
    exact runLoop_cancel (sortClusters clusters0) (initState g) 0 i hi
      (fun j hji => by simpa using hj j hji) (by simpa using hsi)
  refine ⟨fun h0 => ?_, hgen⟩
  have hlen : 0 < (sortClusters clusters0).length := by
    have hp := (List.perm_insertionSort clusterGE clusters0).length_eq
    rcases clusters0 with _ | ⟨c, cs⟩
    · exact absurd rfl hcl
    · simp only [sortClusters]
      rw [hp]
      simp
  obtain ⟨ev, hev, hlen0⟩ := hgen 0 hlen (fun j hj => by omega) h0
  rw [List.length_eq_zero] at hlen0
  rw [hlen0] at hev
  exact hev

/-- Claim C3 witness: a one-vertex graph with the stop flag raised before
the run starts. -/
theorem networkC3_cancellation_witness :
    ((fun _ : Nat => true) 0 = true →
      run constKernel RADIUS (fun _ => true) ⟨1, [], []⟩ [[0]] = ([], .cancelled)) ∧
    (∀ i, i < (sortClusters [[0]]).length →
      (∀ j, j < i → (fun _ : Nat => true) j = false) →
      (fun _ : Nat => true) i = true →
      ∃ ev, run constKernel RADIUS (fun _ => true) ⟨1, [], []⟩ [[0]] = (ev, .cancelled) ∧
        ev.length = i) :=
  networkC3_cancellation constKernel RADIUS (fun _ => true) ⟨1, [], []⟩ [[0]] (by simp)

/-- Claim C3 counterexample: on the empty graph (zero components), a run
with cancellation requested before the start still completes with the
(empty) successful layout instead of the cancelled outcome, so the claim
as stated over every graph is false. -/
theorem networkC3_cancellation_cex :
    run constKernel RADIUS (fun _ => true) ⟨0, [], []⟩ [] =
      ([], .done (Array.mkArray 0 ((0 : ℚ), (0 : ℚ)))) ∧
    (run constKernel RADIUS (fun _ => true) ⟨0, [], []⟩ []).2 ≠ Outcome.cancelled := by
  refine ⟨rfl, fun h => ?_⟩
  have hmain : (run constKernel RADIUS (fun _ => true) ⟨0, [], []⟩ []).2 =
      .done (Array.mkArray 0 ((0 : ℚ), (0 : ℚ))) := rfl
  rw [hmain] at h
  simp at h

/-- Claim C4 (amended): for a graph whose component decomposition is a
single component holding exactly the vertex `v`, a non-cancelled run
completes with one progress event and places `v` at
`(2*radius, 2*radius)`: the vertex sits at the local origin, and the
packing translation moves the top-left corner of its bordered bounding
box (border `2*radius`) onto the packing cursor `(0, 0)`, which shifts
the vertex itself by `(2*radius, 2*radius)`. -/
theorem networkC4_singleton_vertex (kernel : Kernel) (radius : ℚ) (stopped : Nat → Bool)
    (g : SGraph) (v : Nat) (hstop : stopped 0 = false) :
    run kernel radius stopped g [[v]] =
      ([1], .done ((Array.mkArray g.n ((0 : ℚ), (0 : ℚ))).setD v
        (2 * radius, 2 * radius))) := by
  have hloc : localLayout kernel radius g [v] = ([((0 : ℚ), (0 : ℚ))], 2 * radius) :=
    localLayout_one rfl
  show runLoop kernel radius stopped g 0 (sortClusters [[v]]) (initState g) = _
  have hsort : sortClusters [[v]] = [[v]] := rfl
  rw [hsort, runLoop_cons_go hstop, runLoop_nil]
  have hstep : stepState kernel radius g (initState g) [v] =
      ⟨(Array.mkArray g.n ((0 : ℚ), (0 : ℚ))).setD v (2 * radius, 2 * radius),
        stepCursor ⟨0, 0, 0, 0⟩ (boundingBox [((0 : ℚ), (0 : ℚ))] (2 * radius)), 1⟩ := by
    simp only [stepState, hloc, initState]
    norm_num [boundingBox, MetGem.translate, writeCoords, subgraph_n]
  rw [hstep]

/-- Claim C4 witness: the concrete one-vertex graph at the configured
radius 30. -/
theorem networkC4_singleton_vertex_witness :
    run constKernel RADIUS (fun _ => false) ⟨1, [], []⟩ [[0]] =
      ([1], .done ((Array.mkArray 1 ((0 : ℚ), (0 : ℚ))).setD 0
        (2 * RADIUS, 2 * RADIUS))) :=
  networkC4_singleton_vertex constKernel RADIUS (fun _ => false) ⟨1, [], []⟩ 0 rfl

/-- Claim C4 counterexample: on the one-vertex graph the surfaced
coordinate of vertex 0 is `(60, 60)` (with the configured radius 30),
not `(0, 0)` as the claim states. -/
theorem networkC4_singleton_vertex_cex :
    coordAt (run constKernel RADIUS (fun _ => false) ⟨1, [], []⟩ [[0]]) 0 =
      some ((60 : ℚ), (60 : ℚ)) ∧
    coordAt (run constKernel RADIUS (fun _ => false) ⟨1, [], []⟩ [[0]]) 0 ≠
      some ((0 : ℚ), (0 : ℚ)) := by
  have h : coordAt (run constKernel RADIUS (fun _ => false) ⟨1, [], []⟩ [[0]]) 0 =
      some ((60 : ℚ), (60 : ℚ)) := by
    norm_num [coordAt, run, runLoop, stepState, initState, localLayout, subgraph,
      MetGem.translate, boundingBox, writeCoords, stepCursor, sortClusters,
      List.insertionSort, constKernel, RADIUS]
  refine ⟨h, ?_⟩
  rw [h]
  intro hc
  have hp := Option.some.inj hc
  have h1 := congrArg Prod.fst hp
  norm_num at h1

section Packing

variable {kernel : Kernel} {radius : ℚ} {g : SGraph}

lemma foldl_min_le (f : Coord → ℚ) :
    ∀ (ps : List Coord) (x : ℚ), ps.foldl (fun m q => min m (f q)) x ≤ x := by
  intro ps
  induction ps with
  | nil => intro x; simp
  | cons p ps ih =>
    intro x
    calc (p :: ps).foldl (fun m q => min m (f q)) x
        = ps.foldl (fun m q => min m (f q)) (min x (f p)) := rfl
      _ ≤ min x (f p) := ih _
      _ ≤ x := min_le_left _ _

lemma le_foldl_max (f : Coord → ℚ) :
    ∀ (ps : List Coord) (x : ℚ), x ≤ ps.foldl (fun m q => max m (f q)) x := by
  intro ps
  induction ps with
  | nil => intro x; simp
  | cons p ps ih =>
    intro x
    calc x ≤ max x (f p) := le_max_left _ _
      _ ≤ ps.foldl (fun m q => max m (f q)) (max x (f p)) := ih _
      _ = (p :: ps).foldl (fun m q => max m (f q)) x := rfl

lemma boundingBox_width_pos {l : List Coord} {border : ℚ} (hl : l ≠ [])
    (hb : 0 < border) : 0 < (boundingBox l border).width := by
  cases l with
  | nil => exact absurd rfl hl
  | cons p ps =>
    have h1 : ps.foldl (fun m q => min m q.1) p.1 ≤ p.1 := foldl_min_le Prod.fst ps p.1
    have h2 : p.1 ≤ ps.foldl (fun m q => max m q.1) p.1 := le_foldl_max Prod.fst ps p.1
    show 0 < ps.foldl (fun m q => max m q.1) p.1 - ps.foldl (fun m q => min m q.1) p.1
      + 2 * border
    linarith

lemma localLayout_snd_pos {ids : List Nat} (hr : 0 < radius) :
    0 < (localLayout kernel radius g ids).2 := by
  simp only [localLayout]
  split_ifs <;> simp <;> linarith

lemma compBB_width_pos {ids : List Nat} (hr : 0 < radius)
    (hne : (localLayout kernel radius g ids).1 ≠ []) :
    0 < (compBB kernel radius g ids).width :=
  boundingBox_width_pos hne (localLayout_snd_pos hr)

lemma stepCursor_maxWidth (c : Cursor) (bb : BBox) :
    (stepCursor c bb).maxWidth = if c.maxWidth = 0 then bb.width * 2 else c.maxWidth := by
  simp only [stepCursor]
  split_ifs <;> rfl

lemma cursorAt_zero (clusters : List (List Nat)) :
    cursorAt kernel radius g clusters 0 = ⟨0, 0, 0, 0⟩ := rfl

lemma cursorAt_succ {clusters : List (List Nat)} {k : Nat} (hk : k < clusters.length) :
    cursorAt kernel radius g clusters (k + 1) =
      stepCursor (cursorAt kernel radius g clusters k)
        (compBB kernel radius g (clusters.get ⟨k, hk⟩)) := by
  unfold cursorAt cursorFrom
  rw [List.take_succ, List.foldl_append]
  have h : clusters[k]? = some (clusters.get ⟨k, hk⟩) := by
    rw [List.getElem?_eq_getElem hk]
    rfl
  rw [h]
  rfl

lemma cursorAt_maxWidth_set_once {clusters : List (List Nat)}
    (h0 : 0 < clusters.length)
    (hw : 0 < (compBB kernel radius g (clusters.get ⟨0, h0⟩)).width) :
    ∀ k, 1 ≤ k → k ≤ clusters.length →
      (cursorAt kernel radius g clusters k).maxWidth =
        (compBB kernel radius g (clusters.get ⟨0, h0⟩)).width * 2 := by
  intro k
  induction k with
  | zero => omega
  | succ m ih =>
    intro _ hle
    rcases Nat.eq_or_lt_of_le (Nat.one_le_iff_ne_zero.mpr (Nat.succ_ne_zero m)) with h | h
    · cases m with
      | zero =>
        rw [cursorAt_succ h0, stepCursor_maxWidth, cursorAt_zero]
        simp
      | succ m' =>
        have hm : 1 ≤ m' + 1 := Nat.succ_le_succ (Nat.zero_le m')
        have hmlt : m' + 1 < clusters.length := Nat.lt_of_succ_le hle
        have hIH := ih hm (Nat.le_of_lt hmlt)
        rw [cursorAt_succ hmlt, stepCursor_maxWidth, hIH]
        have : (compBB kernel radius g (clusters.get ⟨0, h0⟩)).width * 2 ≠ 0 := by linarith
        rw [if_neg this]
    · cases m with
      | zero =>
        rw [cursorAt_succ h0, stepCursor_maxWidth, cursorAt_zero]
        simp
      | succ m' =>
        have hm : 1 ≤ m' + 1 := Nat.succ_le_succ (Nat.zero_le m')
        have hmlt : m' + 1 < clusters.length := Nat.lt_of_succ_le hle
        have hIH := ih hm (Nat.le_of_lt hmlt)
        rw [cursorAt_succ hmlt, stepCursor_maxWidth, hIH]
        have : (compBB kernel radius g (clusters.get ⟨0, h0⟩)).width * 2 ≠ 0 := by linarith
        rw [if_neg this]

end Packing

/-- Claim C2: components are processed in decreasing order of size (the
processed list is a permutation of the decomposition, sorted so that
each component is at least as large as the next), and the packing cursor
follows the shelf heuristic: `max_width` is set exactly once — from the
first packed component on it equals twice the bordered bounding-box
width of that first (largest) component — and at each component the
cursor advances `dx` by the bordered width, tracks the row height
maximum, and wraps to a new row (`dx = 0`, `dy` advanced by the row
height, row tracker reset) exactly when the advanced `dx` reaches
`max_width`. -/
theorem networkC2_shelf_packing (kernel : Kernel) (radius : ℚ) (g : SGraph)
    (clusters0 : List (List Nat)) (hr : 0 < radius)
    (hnl : ∀ ids ∈ clusters0, (localLayout kernel radius g ids).1 ≠ []) :
    List.Perm (sortClusters clusters0) clusters0 ∧
    List.Sorted clusterGE (sortClusters clusters0) ∧
    (∀ h0 : 0 < (sortClusters clusters0).length, ∀ k, 1 ≤ k →
      k ≤ (sortClusters clusters0).length →
      (cursorAt kernel radius g (sortClusters clusters0) k).maxWidth =
        (compBB kernel radius g ((sortClusters clusters0).get ⟨0, h0⟩)).width * 2) ∧
    (∀ k, ∀ hk : k < (sortClusters clusters0).length,
      ((cursorAt kernel radius g (sortClusters clusters0) (k + 1)).maxWidth =
        (if (cursorAt kernel radius g (sortClusters clusters0) k).maxWidth = 0 then
          (compBB kernel radius g ((sortClusters clusters0).get ⟨k, hk⟩)).width * 2
        else (cursorAt kernel radius g (sortClusters clusters0) k).maxWidth)) ∧
      ((if (cursorAt kernel radius g (sortClusters clusters0) k).maxWidth = 0 then
          (compBB kernel radius g ((sortClusters clusters0).get ⟨k, hk⟩)).width * 2
        else (cursorAt kernel radius g (sortClusters clusters0) k).maxWidth) ≤
          (cursorAt kernel radius g (sortClusters clusters0) k).dx +
          (compBB kernel radius g ((sortClusters clusters0).get ⟨k, hk⟩)).width →
        (cursorAt kernel radius g (sortClusters clusters0) (k + 1)).dx = 0 ∧
        (cursorAt kernel radius g (sortClusters clusters0) (k + 1)).dy =
          (cursorAt kernel radius g (sortClusters clusters0) k).dy +
          max (cursorAt kernel radius g (sortClusters clusters0) k).maxHeight
            (compBB kernel radius g ((sortClusters clusters0).get ⟨k, hk⟩)).height ∧
        (cursorAt kernel radius g (sortClusters clusters0) (k + 1)).maxHeight = 0) ∧
      (¬ ((if (cursorAt kernel radius g (sortClusters clusters0) k).maxWidth = 0 then
          (compBB kernel radius g ((sortClusters clusters0).get ⟨k, hk⟩)).width * 2
        else (cursorAt kernel radius g (sortClusters clusters0) k).maxWidth) ≤
          (cursorAt kernel radius g (sortClusters clusters0) k).dx +
          (compBB kernel radius g ((sortClusters clusters0).get ⟨k, hk⟩)).width) →
        (cursorAt kernel radius g (sortClusters clusters0) (k + 1)).dx =
          (cursorAt kernel radius g (sortClusters clusters0) k).dx +
          (compBB kernel radius g ((sortClusters clusters0).get ⟨k, hk⟩)).width ∧
        (cursorAt kernel radius g (sortClusters clusters0) (k + 1)).dy =
          (cursorAt kernel radius g (sortClusters clusters0) k).dy ∧
        (cursorAt kernel radius g (sortClusters clusters0) (k + 1)).maxHeight =
          max (cursorAt kernel radius g (sortClusters clusters0) k).maxHeight
            (compBB kernel radius g ((sortClusters clusters0).get ⟨k, hk⟩)).height)) := by
  refine ⟨List.perm_insertionSort clusterGE clusters0,
    List.sorted_insertionSort clusterGE clusters0, ?_, ?_⟩
  · intro h0 k hk1 hk2
    have hmem : (sortClusters clusters0).get ⟨0, h0⟩ ∈ clusters0 :=
      (List.perm_insertionSort clusterGE clusters0).mem_iff.mp
        (List.get_mem (sortClusters clusters0) 0 h0)
    exact cursorAt_maxWidth_set_once h0 (compBB_width_pos hr (hnl _ hmem)) k hk1 hk2
  · intro k hk
    rw [cursorAt_succ hk]
    refine ⟨stepCursor_maxWidth _ _, ?_, ?_⟩
    · intro hle
      simp only [stepCursor]
      rw [if_pos hle]
      exact ⟨rfl, rfl, rfl⟩
    · intro hgt
      simp only [stepCursor]
      rw [if_neg hgt]
      exact ⟨rfl, rfl, rfl⟩

/-- Claim C2 witness: the single-component decomposition `[[0]]` of a
one-vertex graph at the configured radius 30. -/
theorem networkC2_shelf_packing_witness :
    List.Perm (sortClusters [[0]]) [[0]] ∧
    List.Sorted clusterGE (sortClusters [[0]]) ∧
    (∀ h0 : 0 < (sortClusters [[0]]).length, ∀ k, 1 ≤ k →
      k ≤ (sortClusters [[0]]).length →
      (cursorAt constKernel RADIUS ⟨1, [], []⟩ (sortClusters [[0]]) k).maxWidth =
        (compBB constKernel RADIUS ⟨1, [], []⟩
          ((sortClusters [[0]]).get ⟨0, h0⟩)).width * 2) ∧
    (∀ k, ∀ hk : k < (sortClusters [[0]]).length,
      ((cursorAt constKernel RADIUS ⟨1, [], []⟩ (sortClusters [[0]]) (k + 1)).maxWidth =
        (if (cursorAt constKernel RADIUS ⟨1, [], []⟩ (sortClusters [[0]]) k).maxWidth = 0 then
          (compBB constKernel RADIUS ⟨1, [], []⟩
            ((sortClusters [[0]]).get ⟨k, hk⟩)).width * 2
        else (cursorAt constKernel RADIUS ⟨1, [], []⟩ (sortClusters [[0]]) k).maxWidth)) ∧
      ((if (cursorAt constKernel RADIUS ⟨1, [], []⟩ (sortClusters [[0]]) k).maxWidth = 0 then
          (compBB constKernel RADIUS ⟨1, [], []⟩
            ((sortClusters [[0]]).get ⟨k, hk⟩)).width * 2
        else (cursorAt constKernel RADIUS ⟨1, [], []⟩ (sortClusters [[0]]) k).maxWidth) ≤
          (cursorAt constKernel RADIUS ⟨1, [], []⟩ (sortClusters [[0]]) k).dx +
          (compBB constKernel RADIUS ⟨1, [], []⟩ ((sortClusters [[0]]).get ⟨k, hk⟩)).width →
        (cursorAt constKernel RADIUS ⟨1, [], []⟩ (sortClusters [[0]]) (k + 1)).dx = 0 ∧
        (cursorAt constKernel RADIUS ⟨1, [], []⟩ (sortClusters [[0]]) (k + 1)).dy =
          (cursorAt constKernel RADIUS ⟨1, [], []⟩ (sortClusters [[0]]) k).dy +
          max (cursorAt constKernel RADIUS ⟨1, [], []⟩ (sortClusters [[0]]) k).maxHeight
            (compBB constKernel RADIUS ⟨1, [], []⟩
              ((sortClusters [[0]]).get ⟨k, hk⟩)).height ∧
        (cursorAt constKernel RADIUS ⟨1, [], []⟩
          (sortClusters [[0]]) (k + 1)).maxHeight = 0) ∧
      (¬ ((if (cursorAt constKernel RADIUS ⟨1, [], []⟩ (sortClusters [[0]]) k).maxWidth = 0
          then (compBB constKernel RADIUS ⟨1, [], []⟩
            ((sortClusters [[0]]).get ⟨k, hk⟩)).width * 2
        else (cursorAt constKernel RADIUS ⟨1, [], []⟩ (sortClusters [[0]]) k).maxWidth) ≤
          (cursorAt constKernel RADIUS ⟨1, [], []⟩ (sortClusters [[0]]) k).dx +
          (compBB constKernel RADIUS ⟨1, [], []⟩
            ((sortClusters [[0]]).get ⟨k, hk⟩)).width) →
        (cursorAt constKernel RADIUS ⟨1, [], []⟩ (sortClusters [[0]]) (k + 1)).dx =
          (cursorAt constKernel RADIUS ⟨1, [], []⟩ (sortClusters [[0]]) k).dx +
          (compBB constKernel RADIUS ⟨1, [], []⟩
            ((sortClusters [[0]]).get ⟨k, hk⟩)).width ∧
        (cursorAt constKernel RADIUS ⟨1, [], []⟩ (sortClusters [[0]]) (k + 1)).dy =
          (cursorAt constKernel RADIUS ⟨1, [], []⟩ (sortClusters [[0]]) k).dy ∧
        (cursorAt constKernel RADIUS ⟨1, [], []⟩ (sortClusters [[0]]) (k + 1)).maxHeight =
          max (cursorAt constKernel RADIUS ⟨1, [], []⟩ (sortClusters [[0]]) k).maxHeight
            (compBB constKernel RADIUS ⟨1, [], []⟩
              ((sortClusters [[0]]).get ⟨k, hk⟩)).height)) :=
  networkC2_shelf_packing constKernel RADIUS ⟨1, [], []⟩ [[0]]
    (by norm_num [RADIUS])
    (by
      intro ids h
      simp only [List.mem_singleton] at h
      subst h
      rw [localLayout_one (show ([0] : List Nat).length = 1 from rfl)]
      simp)

section Events

variable {kernel : Kernel} {radius : ℚ} {stopped : Nat → Bool} {g : SGraph}

lemma runLoop_no_stop (hstop : ∀ j, stopped j = false) :
    ∀ (clusters : List (List Nat)) (st : RunState) (i : Nat),
      ∃ layout, runLoop kernel radius stopped g i clusters st =
        (cumSums st.totalCount (clusters.map fun ids => (subgraph g ids).n),
          .done layout) := by
  intro clusters
  induction clusters with
  | nil => intro st i; exact ⟨st.layout, rfl⟩
  | cons c rest ih =>
    intro st i
    obtain ⟨layout, hl⟩ := ih (stepState kernel radius g st c) (i + 1)
    refine ⟨layout, ?_⟩
    rw [runLoop_cons_go (hstop i), hl]
    rfl

lemma cumSums_length : ∀ (xs : List Nat) (t : Nat), (cumSums t xs).length = xs.length := by
  intro xs
  induction xs with
  | nil => intro t; rfl
  | cons x xs ih => intro t; simp [cumSums, ih]

lemma cumSums_lt_mem : ∀ (xs : List Nat) (t : Nat), (∀ x ∈ xs, 0 < x) →
    ∀ y ∈ cumSums t xs, t < y := by
  intro xs
  induction xs with
  | nil => intro t _ y hy; simp [cumSums] at hy
  | cons x xs ih =>
    intro t hpos y hy
    simp only [cumSums, List.mem_cons] at hy
    have hx : 0 < x := hpos x (List.mem_cons_self x xs)
    rcases hy with h | h
    · omega
    · have := ih (t + x) (fun z hz => hpos z (List.mem_cons_of_mem x hz)) y h
      omega

lemma cumSums_sorted : ∀ (xs : List Nat) (t : Nat), (∀ x ∈ xs, 0 < x) →
    List.Sorted (· < ·) (cumSums t xs) := by
  intro xs
  induction xs with
  | nil => intro t _; simp [cumSums]
  | cons x xs ih =>
    intro t hpos
    rw [cumSums, List.sorted_cons]
    exact ⟨cumSums_lt_mem xs (t + x) (fun z hz => hpos z (List.mem_cons_of_mem x hz)),
      ih (t + x) (fun z hz => hpos z (List.mem_cons_of_mem x hz))⟩

lemma cumSums_getLastQ : ∀ (xs : List Nat) (t : Nat), xs ≠ [] →
    (cumSums t xs).getLast? = some (t + xs.sum) := by
  intro xs
  induction xs with
  | nil => intro t h; exact absurd rfl h
  | cons x xs ih =>
    intro t _
    cases xs with
    | nil => simp [cumSums]
    | cons y ys =>
      have hstep : cumSums t (x :: y :: ys) = (t + x) :: cumSums (t + x) (y :: ys) := rfl
      have hcons : cumSums (t + x) (y :: ys) =
          (t + x + y) :: cumSums (t + x + y) ys := rfl
      rw [hstep, hcons, List.getLast?_cons_cons, ← hcons,
        ih (t + x) (List.cons_ne_nil y ys)]
      congr 1
      simp only [List.sum_cons]
      omega

lemma sorted_sizes_sum (clusters0 : List (List Nat))
    (hnd : ∀ c ∈ clusters0, c.Nodup)
    (hdisj : clusters0.Pairwise List.Disjoint)
    (hcov : ∀ v, v < g.n ↔ ∃ c ∈ clusters0, v ∈ c) :
    ((sortClusters clusters0).map (fun ids => (subgraph g ids).n)).sum = g.n := by
  have hfun : (fun ids : List Nat => (subgraph g ids).n) =
      fun ids : List Nat => ids.length := rfl
  rw [hfun]
  have h1 : ((sortClusters clusters0).map List.length).sum =
      (clusters0.map List.length).sum :=
    ((List.perm_insertionSort clusterGE clusters0).map List.length).sum_eq
  rw [h1, ← List.length_flatten]
  have hnodup : clusters0.flatten.Nodup := List.nodup_flatten.mpr ⟨hnd, hdisj⟩
  have hperm2 : clusters0.flatten.Perm (List.range g.n) := by
    rw [List.perm_ext_iff_of_nodup hnodup (List.nodup_range g.n)]
    intro a
    rw [List.mem_flatten, List.mem_range]
    constructor
    · intro h
      exact (hcov a).mpr h
    · intro h
      exact (hcov a).mp h
  rw [hperm2.length_eq, List.length_range]

end Events

/-- Claim C6: in a non-cancelled run, exactly one progress event is
emitted per component (the event list is the list of cumulative vertex
counts, one entry per sorted component), the event values are strictly
increasing, and the final event value equals the total vertex count of
the graph. -/
theorem networkC6_progress_events (kernel : Kernel) (radius : ℚ) (stopped : Nat → Bool)
    (g : SGraph) (clusters0 : List (List Nat))
    (hstop : ∀ j, stopped j = false)
    (hne : ∀ c ∈ clusters0, c ≠ [])
    (hnd : ∀ c ∈ clusters0, c.Nodup)
    (hdisj : clusters0.Pairwise List.Disjoint)
    (hcov : ∀ v, v < g.n ↔ ∃ c ∈ clusters0, v ∈ c) :
    (∃ layout, run kernel radius stopped g clusters0 =
      (cumSums 0 ((sortClusters clusters0).map fun ids => (subgraph g ids).n),
        .done layout)) ∧
    (run kernel radius stopped g clusters0).1.length = (sortClusters clusters0).length ∧
    List.Sorted (· < ·) (run kernel radius stopped g clusters0).1 ∧
    (clusters0 ≠ [] →
      (run kernel radius stopped g clusters0).1.getLast? = some g.n) := by
  obtain ⟨layout, hrun⟩ := runLoop_no_stop hstop (sortClusters clusters0) (initState g) 0
  have hrun' : run kernel radius stopped g clusters0 =
      (cumSums 0 ((sortClusters clusters0).map fun ids => (subgraph g ids).n),
        .done layout) := hrun
  have hpos : ∀ x ∈ (sortClusters clusters0).map (fun ids => (subgraph g ids).n),
      0 < x := by
    intro x hx
    rw [List.mem_map] at hx
    obtain ⟨ids, hids, hxe⟩ := hx
    subst hxe
    rw [subgraph_n]
    exact List.length_pos.mpr
      (hne ids ((List.perm_insertionSort clusterGE clusters0).mem_iff.mp hids))
  refine ⟨⟨layout, hrun'⟩, ?_, ?_, ?_⟩
  · rw [hrun']
    show (cumSums 0 _).length = _
    rw [cumSums_length, List.length_map]
  · rw [hrun']
    exact cumSums_sorted _ 0 hpos
  · intro hne0
    rw [hrun']
    show (cumSums 0 _).getLast? = _
    have hsne : (sortClusters clusters0).map (fun ids => (subgraph g ids).n) ≠ [] := by
      intro hnil
      rw [List.map_eq_nil_iff] at hnil
      apply hne0
      have hlen := (List.perm_insertionSort clusterGE clusters0).length_eq
      rw [show List.insertionSort clusterGE clusters0 = sortClusters clusters0 from rfl,
        hnil] at hlen
      exact List.length_eq_zero.mp hlen.symm
    rw [cumSums_getLastQ _ 0 hsne, Nat.zero_add,
      sorted_sizes_sum clusters0 hnd hdisj hcov]

/-- Claim C6 witness: the one-component decomposition `[[0]]` of a
one-vertex graph: one event with value 1, trivially increasing, final
value 1 = vertex count. -/
theorem networkC6_progress_events_witness :
    (∃ layout, run constKernel RADIUS (fun _ => false) ⟨1, [], []⟩ [[0]] =
      (cumSums 0 ((sortClusters [[0]]).map fun ids =>
        (subgraph ⟨1, [], []⟩ ids).n), .done layout)) ∧
    (run constKernel RADIUS (fun _ => false) ⟨1, [], []⟩ [[0]]).1.length =
      (sortClusters [[0]]).length ∧
    List.Sorted (· < ·) (run constKernel RADIUS (fun _ => false) ⟨1, [], []⟩ [[0]]).1 ∧
    ([[0]] ≠ ([] : List (List Nat)) →
      (run constKernel RADIUS (fun _ => false) ⟨1, [], []⟩ [[0]]).1.getLast? = some 1) :=
  networkC6_progress_events constKernel RADIUS (fun _ => false) ⟨1, [], []⟩ [[0]]
    (fun _ => rfl) (by simp) (by simp) (by simp)
    (by intro v; simp [Nat.lt_one_iff])

section LayoutArray

variable {kernel : Kernel} {radius : ℚ} {stopped : Nat → Bool} {g : SGraph}

lemma getD_setD_ne (a : Array Coord) (i v : Nat) (x d : Coord) (h : i ≠ v) :
    (a.setD i x).getD v d = a.getD v d := by
  rw [Array.getD_eq_get?, Array.getD_eq_get?]
  unfold Array.setD
  split
  · rw [Array.get?_set]
    simp [h]
  · rfl

lemma getD_setD_self (a : Array Coord) (i : Nat) (x d : Coord) (h : i < a.size) :
    (a.setD i x).getD i d = x := by
  rw [Array.getD_eq_get?]
  unfold Array.setD
  split
  · rw [Array.get?_set]
    simp
  · omega

lemma writeCoords_size : ∀ (ps : List (Coord × Nat)) (a : Array Coord),
    (writeCoords a ps).size = a.size := by
  intro ps
  induction ps with
  | nil => intro a; rfl
  | cons q ps ih =>
    intro a
    show (writeCoords (a.setD q.2 q.1) ps).size = a.size
    rw [ih, Array.size_setD]

lemma writeCoords_getD_not_mem : ∀ (ps : List (Coord × Nat)) (a : Array Coord)
    (v : Nat) (d : Coord), v ∉ ps.map Prod.snd →
    (writeCoords a ps).getD v d = a.getD v d := by
  intro ps
  induction ps with
  | nil => intro a v d _; rfl
  | cons q ps ih =>
    intro a v d hv
    simp only [List.map_cons, List.mem_cons] at hv
    push_neg at hv
    show (writeCoords (a.setD q.2 q.1) ps).getD v d = a.getD v d
    rw [ih _ v d hv.2]
    exact getD_setD_ne a q.2 v q.1 d (Ne.symm hv.1)

lemma writeCoords_getD_at : ∀ (ps : List (Coord × Nat)) (a : Array Coord) (j : Nat)
    (hj : j < ps.length) (d : Coord),
    (ps.map Prod.snd).Nodup → (ps.get ⟨j, hj⟩).2 < a.size →
    (writeCoords a ps).getD (ps.get ⟨j, hj⟩).2 d = (ps.get ⟨j, hj⟩).1 := by
  intro ps
  induction ps with
  | nil => intro a j hj; simp at hj
  | cons q ps ih =>
    intro a j hj d hnd hsz
    cases j with
    | zero =>
      have hnotin : q.2 ∉ ps.map Prod.snd := by
        simp only [List.map_cons, List.nodup_cons] at hnd
        exact hnd.1
      show (writeCoords (a.setD q.2 q.1) ps).getD q.2 d = q.1
      rw [writeCoords_getD_not_mem ps _ q.2 d hnotin]
      exact getD_setD_self a q.2 q.1 d hsz
    | succ k =>
      have hk : k < ps.length := by simpa using hj
      have hnd' : (ps.map Prod.snd).Nodup := by
        simp only [List.map_cons, List.nodup_cons] at hnd
        exact hnd.2
      have hsz' : (ps.get ⟨k, hk⟩).2 < (a.setD q.2 q.1).size := by
        rw [Array.size_setD]
        exact hsz
      exact ih (a.setD q.2 q.1) k hk d hnd' hsz'

lemma not_mem_map_snd_zip {v : Nat} (l : List Coord) (c : List Nat) (h : v ∉ c) :
    v ∉ (l.zip c).map Prod.snd := by
  intro hv
  apply h
  rw [List.mem_map] at hv
  obtain ⟨p, hp, he⟩ := hv
  have := List.of_mem_zip (show (p.1, p.2) ∈ l.zip c from hp)
  rw [← he]
  exact this.2

lemma localLayout_fst_length {ids : List Nat}
    (h : (kernel (subgraph g ids) 1000 radius (2 * radius)).length = ids.length) :
    (localLayout kernel radius g ids).1.length = ids.length := by
  by_cases h1 : ids.length = 1
  · rw [localLayout_one h1]
    simpa using h1.symm
  · by_cases h2 : ids.length = 2
    · rw [localLayout_two h2]
      simpa using h2.symm
    · rw [localLayout_big h1 h2]
      exact h

lemma globalCoords_length {ids : List Nat} (dx dy : ℚ)
    (h : (kernel (subgraph g ids) 1000 radius (2 * radius)).length = ids.length) :
    (globalCoords kernel radius g dx dy ids).length = ids.length := by
  unfold globalCoords MetGem.translate
  rw [List.length_map]
  exact localLayout_fst_length h

lemma runLoop_done_size : ∀ (clusters : List (List Nat)) (st : RunState) (i : Nat)
    (ev : List Nat) (layout : Array Coord),
    runLoop kernel radius stopped g i clusters st = (ev, .done layout) →
    layout.size = st.layout.size := by
  intro clusters
  induction clusters with
  | nil =>
    intro st i ev layout h
    rw [runLoop_nil] at h
    have h2 := congrArg Prod.snd h
    simp only [Outcome.done.injEq] at h2
    rw [← h2]
  | cons c rest ih =>
    intro st i ev layout h
    cases hst : stopped i with
    | true =>
      rw [runLoop_cons_stop hst] at h
      have h2 := congrArg Prod.snd h
      simp at h2
    | false =>
      rw [runLoop_cons_go hst] at h
      have h2 := congrArg Prod.snd h
      simp only at h2
      have hr : runLoop kernel radius stopped g (i + 1) rest
          (stepState kernel radius g st c) =
          ((runLoop kernel radius stopped g (i + 1) rest
            (stepState kernel radius g st c)).1, .done layout) := by
        rw [← h2]
      calc layout.size
          = (stepState kernel radius g st c).layout.size :=
            ih (stepState kernel radius g st c) (i + 1) _ layout hr
        _ = st.layout.size := writeCoords_size _ st.layout

lemma runLoop_done_frame : ∀ (clusters : List (List Nat)) (st : RunState) (i : Nat)
    (ev : List Nat) (layout : Array Coord),
    runLoop kernel radius stopped g i clusters st = (ev, .done layout) →
    ∀ (v : Nat) (d : Coord), (∀ c ∈ clusters, v ∉ c) →
    layout.getD v d = st.layout.getD v d := by
  intro clusters
  induction clusters with
  | nil =>
    intro st i ev layout h v d _
    rw [runLoop_nil] at h
    have h2 := congrArg Prod.snd h
    simp only [Outcome.done.injEq] at h2
    rw [← h2]
  | cons c rest ih =>
    intro st i ev layout h v d hv
    cases hst : stopped i with
    | true =>
      rw [runLoop_cons_stop hst] at h
      have h2 := congrArg Prod.snd h
      simp at h2
    | false =>
      rw [runLoop_cons_go hst] at h
      have h2 := congrArg Prod.snd h
      simp only at h2
      have hr : runLoop kernel radius stopped g (i + 1) rest
          (stepState kernel radius g st c) =
          ((runLoop kernel radius stopped g (i + 1) rest
            (stepState kernel radius g st c)).1, .done layout) := by
        rw [← h2]
      have hrest := ih (stepState kernel radius g st c) (i + 1) _ layout hr v d
        (fun c' hc' => hv c' (List.mem_cons_of_mem c hc'))
      rw [hrest]
      show (writeCoords st.layout _).getD v d = st.layout.getD v d
      exact writeCoords_getD_not_mem _ st.layout v d
        (not_mem_map_snd_zip _ c (hv c (List.mem_cons_self c rest)))

lemma runLoop_done_char : ∀ (clusters : List (List Nat)) (st : RunState) (i : Nat)
    (ev : List Nat) (layout : Array Coord),
    runLoop kernel radius stopped g i clusters st = (ev, .done layout) →
    (∀ ids ∈ clusters,
      (kernel (subgraph g ids) 1000 radius (2 * radius)).length = ids.length) →
    (∀ c ∈ clusters, c.Nodup) →
    clusters.Pairwise List.Disjoint →
    (∀ c ∈ clusters, ∀ v ∈ c, v < st.layout.size) →
    ∀ k (hk : k < clusters.length) j (hj : j < (clusters.get ⟨k, hk⟩).length),
      layout.getD ((clusters.get ⟨k, hk⟩).get ⟨j, hj⟩) ((0 : ℚ), (0 : ℚ)) =
        (globalCoords kernel radius g
          (cursorFrom kernel radius g st.cursor (clusters.take k)).dx
          (cursorFrom kernel radius g st.cursor (clusters.take k)).dy
          (clusters.get ⟨k, hk⟩)).getD j ((0 : ℚ), (0 : ℚ)) := by
  intro clusters
  induction clusters with
  | nil =>
    intro st i ev layout _ _ _ _ _ k hk
    simp at hk
  | cons c rest ih =>
    intro st i ev layout h hker hnd hdisj hlt k hk j hj
    cases hst : stopped i with
    | true =>
      rw [runLoop_cons_stop hst] at h
      have h2 := congrArg Prod.snd h
      simp at h2
    | false =>
      rw [runLoop_cons_go hst] at h
      have h2 := congrArg Prod.snd h
      simp only at h2
      have hr : runLoop kernel radius stopped g (i + 1) rest
          (stepState kernel radius g st c) =
          ((runLoop kernel radius stopped g (i + 1) rest
            (stepState kernel radius g st c)).1, .done layout) := by
        rw [← h2]
      cases k with
      | zero =>
        have hcj : (c.get ⟨j, hj⟩) ∈ c := List.get_mem c j hj
        have hnot : ∀ c' ∈ rest, (c.get ⟨j, hj⟩) ∉ c' := by
          intro c' hc' hm
          exact (List.pairwise_cons.mp hdisj).1 c' hc' hcj hm
        have hframe := runLoop_done_frame rest (stepState kernel radius g st c)
          (i + 1) _ layout hr (c.get ⟨j, hj⟩) ((0 : ℚ), (0 : ℚ)) hnot
        show layout.getD (c.get ⟨j, hj⟩) ((0 : ℚ), (0 : ℚ)) =
          (globalCoords kernel radius g st.cursor.dx st.cursor.dy c).getD j
            ((0 : ℚ), (0 : ℚ))
        rw [hframe]
        have hlenc : (globalCoords kernel radius g st.cursor.dx st.cursor.dy c).length
            = c.length := globalCoords_length _ _ (hker c (List.mem_cons_self c rest))
        have hzlen : j < ((globalCoords kernel radius g st.cursor.dx st.cursor.dy c).zip
            c).length := by
          rw [List.length_zip, hlenc]
          simpa using hj
        have hget : (((globalCoords kernel radius g st.cursor.dx st.cursor.dy c).zip
            c).get ⟨j, hzlen⟩) =
            ((globalCoords kernel radius g st.cursor.dx st.cursor.dy c).get
              ⟨j, by rw [hlenc]; exact hj⟩, c.get ⟨j, hj⟩) := by
          show ((globalCoords kernel radius g st.cursor.dx st.cursor.dy c).zip c)[j] = _
          rw [List.getElem_zip]
          rfl
        have hmapsnd : (((globalCoords kernel radius g st.cursor.dx st.cursor.dy c).zip
            c).map Prod.snd) = c :=
          List.map_snd_zip _ c (le_of_eq hlenc.symm)
        have hndz : (((globalCoords kernel radius g st.cursor.dx st.cursor.dy c).zip
            c).map Prod.snd).Nodup := by
          rw [hmapsnd]
          exact hnd c (List.mem_cons_self c rest)
        have hsz : (((globalCoords kernel radius g st.cursor.dx st.cursor.dy c).zip
            c).get ⟨j, hzlen⟩).2 < st.layout.size := by
          rw [hget]
          exact hlt c (List.mem_cons_self c rest) _ hcj
        have hwrite := writeCoords_getD_at _ st.layout j hzlen ((0 : ℚ), (0 : ℚ)) hndz hsz
        rw [hget] at hwrite
        show (writeCoords st.layout ((globalCoords kernel radius g st.cursor.dx
          st.cursor.dy c).zip c)).getD (c.get ⟨j, hj⟩) ((0 : ℚ), (0 : ℚ)) = _
        rw [hwrite]
        show _ = (globalCoords kernel radius g st.cursor.dx st.cursor.dy c).getD j
          ((0 : ℚ), (0 : ℚ))
        rw [List.getD_eq_getElem _ _ (by rw [hlenc]; exact hj)]
        rfl
      | succ k' =>
        have hk' : k' < rest.length := by simpa using hk
        have hres := ih (stepState kernel radius g st c) (i + 1) _ layout hr
          (fun ids hi => hker ids (List.mem_cons_of_mem c hi))
          (fun c' hc' => hnd c' (List.mem_cons_of_mem c hc'))
          (List.pairwise_cons.mp hdisj).2
          (fun c' hc' v hv => by
            rw [show (stepState kernel radius g st c).layout.size = st.layout.size
              from writeCoords_size _ st.layout]
            exact hlt c' (List.mem_cons_of_mem c hc') v hv)
          k' hk' j hj
        exact hres

end LayoutArray

/-- Claim C1: a non-cancelled run returns a layout holding exactly one
coordinate per vertex of the input graph (the array has one slot per
vertex index), and the coordinate of a vertex is stored under its
original graph index: for component number `k` of the processed
(sorted) decomposition, the entry at original index `c_k[j]` is the
`j`-th global coordinate of that component (its local layout translated
onto the packing cursor in force when it was placed). -/
theorem networkC1_layout_indexing (kernel : Kernel) (radius : ℚ) (stopped : Nat → Bool)
    (g : SGraph) (clusters0 : List (List Nat))
    (hstop : ∀ j, stopped j = false)
    (hker : ∀ ids ∈ clusters0,
      (kernel (subgraph g ids) 1000 radius (2 * radius)).length = ids.length)
    (hnd : ∀ c ∈ clusters0, c.Nodup)
    (hdisj : clusters0.Pairwise List.Disjoint)
    (hlt : ∀ c ∈ clusters0, ∀ v ∈ c, v < g.n) :
    ∃ ev layout, run kernel radius stopped g clusters0 = (ev, .done layout) ∧
      layout.size = g.n ∧
      ∀ k (hk : k < (sortClusters clusters0).length) j
        (hj : j < ((sortClusters clusters0).get ⟨k, hk⟩).length),
        layout.getD (((sortClusters clusters0).get ⟨k, hk⟩).get ⟨j, hj⟩)
            ((0 : ℚ), (0 : ℚ)) =
          (globalCoords kernel radius g
            (cursorAt kernel radius g (sortClusters clusters0) k).dx
            (cursorAt kernel radius g (sortClusters clusters0) k).dy
            ((sortClusters clusters0).get ⟨k, hk⟩)).getD j ((0 : ℚ), (0 : ℚ)) := by
  obtain ⟨layout, hrun⟩ := runLoop_no_stop hstop (sortClusters clusters0) (initState g) 0
  have hmemtrans : ∀ c ∈ sortClusters clusters0, c ∈ clusters0 := fun c hc =>
    (List.perm_insertionSort clusterGE clusters0).mem_iff.mp hc
  refine ⟨_, layout, hrun, ?_, ?_⟩
  · have hsz := runLoop_done_size (sortClusters clusters0) (initState g) 0 _ layout hrun
    rw [hsz]
    exact Array.size_mkArray g.n ((0 : ℚ), (0 : ℚ))
  · intro k hk j hj
    exact runLoop_done_char (sortClusters clusters0) (initState g) 0 _ layout hrun
      (fun ids h => hker ids (hmemtrans ids h))
      (fun c h => hnd c (hmemtrans c h))
      ((List.Perm.pairwise_iff (fun h => h.symm)
        (List.perm_insertionSort clusterGE clusters0)).mpr hdisj)
      (fun c h v hv => by
        rw [show (initState g).layout.size = g.n from Array.size_mkArray g.n _]
        exact hlt c (hmemtrans c h) v hv)
      k hk j hj

/-- Claim C1 witness: the one-component decomposition `[[0]]` of a
one-vertex graph. -/
theorem networkC1_layout_indexing_witness :
    ∃ ev layout, run constKernel RADIUS (fun _ => false) ⟨1, [], []⟩ [[0]] =
      (ev, .done layout) ∧
      layout.size = 1 ∧
      ∀ k (hk : k < (sortClusters [[0]]).length) j
        (hj : j < ((sortClusters [[0]]).get ⟨k, hk⟩).length),
        layout.getD (((sortClusters [[0]]).get ⟨k, hk⟩).get ⟨j, hj⟩)
            ((0 : ℚ), (0 : ℚ)) =
          (globalCoords constKernel RADIUS ⟨1, [], []⟩
            (cursorAt constKernel RADIUS ⟨1, [], []⟩ (sortClusters [[0]]) k).dx
            (cursorAt constKernel RADIUS ⟨1, [], []⟩ (sortClusters [[0]]) k).dy
            ((sortClusters [[0]]).get ⟨k, hk⟩)).getD j ((0 : ℚ), (0 : ℚ)) :=
  networkC1_layout_indexing constKernel RADIUS (fun _ => false) ⟨1, [], []⟩ [[0]]
    (fun _ => rfl)
    (by intro ids h; simp only [List.mem_singleton] at h; subst h; rfl)
    (by simp) (by simp) (by simp)

namespace GraphML

/-- The Python runtime values that can appear as graph, vertex or edge
attribute values when `GraphMLWriter` serializes a graph: Python bools,
ints, floats, strings, `None`, and numpy integer/floating scalars (which
carry a `dtype`). -/
inductive PyVal where
  | pyBool : Bool → PyVal
  | pyInt : Int → PyVal
  | pyFloat : ℚ → PyVal
  | pyStr : String → PyVal
  | npInt : Int → PyVal
  | npFloat : ℚ → PyVal
  | pyNone : PyVal
deriving DecidableEq, Repr

/-- `isinstance(val, (float, int))`.  In Python, `bool` is a subclass of
`int`, so a bool value passes this check. -/
def isinstFloatOrInt : PyVal → Bool
  | .pyBool _ => true
  | .pyInt _ => true
  | .pyFloat _ => true
  | _ => false

/-- `hasattr(val, "dtype") and issubclass(val.dtype.type, (np.integer,
np.floating))`: true exactly for numpy integer and floating scalars. -/
def hasNumericDtype : PyVal → Bool
  | .npInt _ => true
  | .npFloat _ => true
  | _ => false

/-- `isinstance(val, bool)`: true exactly for Python bools. -/
def isinstBool : PyVal → Bool
  | .pyBool _ => true
  | _ => false

/-- `isinstance(val, str)`: true exactly for Python strings. -/
def isinstStr : PyVal → Bool
  | .pyStr _ => true
  | _ => false

/-- The possible results of `GraphMLWriter._get_type`: a GraphML
`attr.type` name, or `unsupported` for the falsy `return False`. -/
inductive AttrType where
  | double : AttrType
  | boolean : AttrType
  | string : AttrType
  | unsupported : AttrType
deriving DecidableEq, Repr

/-- `GraphMLWriter._get_type` (lines 114-123 of `graphml.py`): the numeric
check comes first, then the bool, then the str check, else falsy. -/
def getType (v : PyVal) : AttrType :=
  if isinstFloatOrInt v || hasNumericDtype v then .double
  else if isinstBool v then .boolean
  else if isinstStr v then .string
  else .unsupported

/-- The `attr.type` entries of the GraphML `key` elements that
`GraphMLWriter.tostring` emits for an attribute table: each attribute is
classified by `_get_type`, and attributes with a falsy type are skipped
(`if not type_: continue`, lines 140-148). -/
def keyTypes (attrs : List (String × PyVal)) : List (String × AttrType) :=
  attrs.filterMap (fun av =>
    match getType av.2 with
    | .unsupported => none
    | t => some (av.1, t))

/-- Claim C9: `GraphMLWriter._get_type` never returns the GraphML type
`boolean` for any input value — the numeric check precedes the bool
check and Python bools are ints, so the boolean branch is unreachable —
and consequently no `key` element written by `GraphMLWriter` carries
`attr.type` equal to `boolean`. -/
theorem graphmlC9_no_boolean_keys :
    (∀ v : PyVal, getType v ≠ AttrType.boolean) ∧
    (∀ (attrs : List (String × PyVal)) (a : String) (t : AttrType),
      (a, t) ∈ keyTypes attrs → t ≠ AttrType.boolean) := by
  have hv : ∀ v : PyVal, getType v ≠ AttrType.boolean := by
    intro v
    cases v <;>
      simp [getType, isinstFloatOrInt, hasNumericDtype, isinstBool, isinstStr]
  refine ⟨hv, fun attrs a t ht hbool => ?_⟩
  subst hbool
  rw [keyTypes, List.mem_filterMap] at ht
  obtain ⟨av, _, hsome⟩ := ht
  cases hget : getType av.2 with
  | boolean => exact hv av.2 hget
  | unsupported =>
    rw [hget] at hsome
    simp at hsome
  | double =>
    rw [hget] at hsome
    simp at hsome
  | string =>
    rw [hget] at hsome
    simp at hsome

/-- Claim C9 witness: a Python `True` is classified as `double`, and the
key written for a bool-valued attribute carries type `double`, not
`boolean`. -/
theorem graphmlC9_no_boolean_keys_witness :
    getType (PyVal.pyBool true) ≠ AttrType.boolean ∧
    AttrType.double ≠ AttrType.boolean :=
  ⟨graphmlC9_no_boolean_keys.1 (PyVal.pyBool true),
   graphmlC9_no_boolean_keys.2 [("x", PyVal.pyBool true)] "x" AttrType.double (by decide)⟩

end GraphML

end MetGem
